import Mathlib

/-!
Verification development for the pc-backup directory-to-S3 synchronization
engine. The definitions below are shallow embeddings of the Python sources:
`sdk.py` (async variant) and `backup.py` (thread-pool variant). File
modification times are modelled as rationals (`Rat`), remote listings and
staged key sets as lists of strings, and a directory index (a Python dict
from path to mtime) as an association list.
-/

namespace PCBackup

/-- The exclusion filter of sdk.py line 81:
`permitted = lambda x: not (x.startswith(PREFIXES) or x.endswith(SUFFIXES))`.
Python `str.startswith` on a tuple succeeds when any listed string matches;
starts-with and ends-with are modelled on the character lists of the
strings. -/
def permitted (px sx : List String) (x : String) : Bool :=
  !(px.any (fun p => p.data.isPrefixOf x.data)
      || sx.any (fun s => s.data.isSuffixOf x.data))

mutual
/-- A static filesystem subtree: every listed file exists and carries its
last-modified time. Directory entries carry a name and children. The forest
type is a plain list of entries, kept mutual with the tree so that the walk
below is structurally recursive. -/
inductive FSTree where
  | file (name : String) (mtime : Rat)
  | dir (name : String) (children : FSForest)

/-- The entries of one directory, in listing order. -/
inductive FSForest where
  | nil
  | cons (t : FSTree) (ts : FSForest)
end

mutual
/-- One directory entry as seen by the walk of `compute_dir_index`
(sdk.py lines 74-96). A file name is filtered by `permitted` (the pruning of
`file_names`) and recorded at `path ++ "/" ++ name` — the
`str(current_dir_path / file_name)` absolute path — only when its mtime is
truthy, mirroring `if mtime := file_path.stat().st_mtime ...` which drops a
file whose stat mtime equals 0.0. A directory name failing `permitted` is
pruned (the in-place `dir_names[:] =` assignment), so the walk never
descends into it. -/
def walkEntry (px sx : List String) (path : String) : FSTree → List (String × Rat)
  | FSTree.file n m =>
      if permitted px sx n = true ∧ m ≠ 0 then [(path ++ "/" ++ n, m)] else []
  | FSTree.dir n cs =>
      if permitted px sx n = true then walkForest px sx (path ++ "/" ++ n) cs else []

/-- The walk over the entries of one directory. Entries contribute in child
order; `os.walk` emits a directory's files before descending into its
subdirectories, but the set of recorded `(path, mtime)` pairs is the same. -/
def walkForest (px sx : List String) (path : String) : FSForest → List (String × Rat)
  | FSForest.nil => []
  | FSForest.cons t ts => walkEntry px sx path t ++ walkForest px sx path ts
end

/-- sdk.py `compute_dir_index(root_dir)`: the walk starts at the root
directory itself, whose own name is never filtered. -/
def compute_dir_index (px sx : List String) (rootPath : String)
    (children : FSForest) : List (String × Rat) :=
  walkForest px sx rootPath children

/-- Python dict access `index[f]` over the association-list model. -/
def dictGet (k : String) : List (String × Rat) → Option Rat
  | [] => none
  | (a, v) :: ts => if a = k then some v else dictGet k ts

/-- Python `dict.keys()`. -/
def keysOf (idx : List (String × Rat)) : List String :=
  idx.map Prod.fst

/-- The `data` dictionary produced by `compute_diff`. -/
structure DiffData where
  deleted : List String
  created : List String
  modified : List String
deriving DecidableEq

/-- `compute_diff` (sdk.py lines 99-123; backup.py lines 134-158 is the same
computation with the bucket passed explicitly): `deleted` is the bucket keys
absent from the new index, `created` the new-index keys absent from the
bucket, and `modified` the keys common to the old and new index whose
recorded mtimes differ. -/
def compute_diff (new_index old_index : List (String × Rat))
    (bucket : List String) : DiffData :=
  let new_index_files := keysOf new_index
  let old_index_files := keysOf old_index
  { deleted := bucket.filter (fun k => decide (k ∉ new_index_files))
    created := new_index_files.filter (fun k => decide (k ∉ bucket))
    modified := (old_index_files.filter (fun f => decide (f ∈ new_index_files))).filter
      (fun f => decide (dictGet f new_index ≠ dictGet f old_index)) }

/-- The upload set assembled in `update_bucket` (sdk.py line 138):
`to_upload = data.get("created", []) + data.get("modified", [])`. -/
def toUpload (d : DiffData) : List String :=
  d.created ++ d.modified

/-- Python `key.lstrip("/")`: drop every leading slash. -/
def lstripSlash (s : String) : String :=
  String.mk (s.data.dropWhile (fun c => c = '/'))

/-- The batch split of sdk.py line 134:
`[to_delete[i : i + 1000] for i in range(0, len(to_delete), 1000)]`.
`range(0, n, 1000)` has `(n + 999) / 1000` elements and the slice
`lst[i : i + 1000]` is drop-then-take. -/
def sliceChunks (l : List String) : List (List String) :=
  (List.range ((l.length + 999) / 1000)).map
    (fun j => (l.drop (1000 * j)).take 1000)

/-- The delete-batch calls issued by `update_bucket` (sdk.py lines 133-135):
keys are first rewritten by `lstrip("/")`, then chunked into groups of at
most 1000, one `bulk_delete_s3_objects` call per chunk. -/
def deleteBatches (deleted : List String) : List (List String) :=
  sliceChunks (deleted.map lstripSlash)

/-- The remote listing left behind by executing a plan: each staged delete
key is removed under its `lstrip("/")` rewrite (`bulk_delete_s3_objects`)
and each uploaded path appears under its `lstrip("/")` key
(`upload_s3_object`). List order is irrelevant; only key membership models
the S3 key set. -/
def bucketAfterRun (bucket : List String) (d : DiffData) : List String :=
  bucket.filter (fun b => decide (b ∉ d.deleted.map lstripSlash))
    ++ (toUpload d).map lstripSlash

/-! ### Helper lemmas about the change detector -/

theorem mem_keysOf_iff_dictGet (k : String) (idx : List (String × Rat)) :
    k ∈ keysOf idx ↔ ∃ v, dictGet k idx = some v := by
  induction idx with
  | nil => simp [keysOf, dictGet]
  | cons hd tl ih =>
    obtain ⟨a, v⟩ := hd
    by_cases hak : a = k
    · subst hak
      simp [keysOf, dictGet]
    · simp only [keysOf, List.map_cons, List.mem_cons, dictGet, if_neg hak]
      constructor
      · rintro (h | h)
        · exact absurd h.symm hak
        · exact ih.mp h
      · intro h
        exact Or.inr (ih.mpr h)

theorem mem_deleted_iff (ni oi : List (String × Rat)) (bucket : List String)
    (k : String) :
    k ∈ (compute_diff ni oi bucket).deleted ↔ k ∈ bucket ∧ k ∉ keysOf ni := by
  simp [compute_diff, List.mem_filter]

theorem mem_created_iff (ni oi : List (String × Rat)) (bucket : List String)
    (k : String) :
    k ∈ (compute_diff ni oi bucket).created ↔ k ∈ keysOf ni ∧ k ∉ bucket := by
  simp [compute_diff, List.mem_filter]

theorem mem_modified_iff (ni oi : List (String × Rat)) (bucket : List String)
    (k : String) :
    k ∈ (compute_diff ni oi bucket).modified ↔
      k ∈ keysOf oi ∧ k ∈ keysOf ni ∧ dictGet k ni ≠ dictGet k oi := by
  simp only [compute_diff, List.mem_filter, decide_eq_true_eq]
  tauto

theorem mem_toUpload_mem_keys (ni oi : List (String × Rat)) (bucket : List String)
    (k : String) (h : k ∈ toUpload (compute_diff ni oi bucket)) : k ∈ keysOf ni := by
  rcases List.mem_append.mp h with h' | h'
  · exact ((mem_created_iff ni oi bucket k).mp h').1
  · exact ((mem_modified_iff ni oi bucket k).mp h').2.1

/-! ### C1: the snapshot-diff change detector -/

/-- C1. For every new index, old index and remote listing, `compute_diff`
returns exactly: `deleted` = the remote keys not among the new-index paths;
`created` = the new-index paths not among the remote keys; `modified` = the
paths recorded in both indexes whose mtimes differ; and the upload set of
`update_bucket` is the union (list concatenation) of `created` and
`modified`. -/
theorem compute_diff_spec (ni oi : List (String × Rat)) (bucket : List String) :
    (∀ k, k ∈ (compute_diff ni oi bucket).deleted ↔
        k ∈ bucket ∧ k ∉ keysOf ni)
  ∧ (∀ p, p ∈ (compute_diff ni oi bucket).created ↔
        p ∈ keysOf ni ∧ p ∉ bucket)
  ∧ (∀ p, p ∈ (compute_diff ni oi bucket).modified ↔
        p ∈ keysOf oi ∧ p ∈ keysOf ni ∧
          ∃ a b, dictGet p ni = some a ∧ dictGet p oi = some b ∧ a ≠ b)
  ∧ (∀ p, p ∈ toUpload (compute_diff ni oi bucket) ↔
        p ∈ (compute_diff ni oi bucket).created
          ∨ p ∈ (compute_diff ni oi bucket).modified) := by
  refine ⟨mem_deleted_iff ni oi bucket, mem_created_iff ni oi bucket, ?_, ?_⟩
  · intro p
    rw [mem_modified_iff]
    constructor
    · rintro ⟨ho, hn, hne⟩
      obtain ⟨a, ha⟩ := (mem_keysOf_iff_dictGet p ni).mp hn
      obtain ⟨b, hb⟩ := (mem_keysOf_iff_dictGet p oi).mp ho
      refine ⟨ho, hn, a, b, ha, hb, ?_⟩
      intro hab
      exact hne (by rw [ha, hb, hab])
    · rintro ⟨ho, hn, a, b, ha, hb, hab⟩
      refine ⟨ho, hn, ?_⟩
      rw [ha, hb]
      simpa using hab
  · intro p
    exact List.mem_append

/-! ### C3: the delete set is disjoint from the upload set -/

/-- C3. The plan produced by the change detector never schedules a key both
for deletion and for upload: the intersection of `deleted` with
`created ++ modified` is empty, because every deleted key is absent from the
new index while every upload candidate is one of its paths. -/
theorem compute_diff_plan_disjoint (ni oi : List (String × Rat))
    (bucket : List String) :
    (compute_diff ni oi bucket).deleted ∩
      toUpload (compute_diff ni oi bucket) = [] := by
  rw [List.eq_nil_iff_forall_not_mem]
  intro k hk
  rw [List.mem_inter_iff] at hk
  exact ((mem_deleted_iff ni oi bucket k).mp hk.1).2
    (mem_toUpload_mem_keys ni oi bucket k hk.2)

/-! ### C2: a locally present, remotely identical file is not rescheduled -/

/-- C2 counterexample evaluation. sdk.py indexes files under their absolute
paths (leading slash) but uploads and lists them under `lstrip("/")` keys,
and `compute_diff` compares the two namespaces directly. For the path `/a`,
present in the new index, recorded unchanged in the old index, and present
remotely under the exact key the engine uploads it under (`a`), the computed
plan nevertheless schedules the remote key `a` for deletion and the path
`/a` for upload. -/
theorem sdk_diff_reschedules_unchanged_file :
    lstripSlash "/a" ∈ (["a", "b"] : List String)
  ∧ "/a" ∈ keysOf [("/a", (1 : Rat))]
  ∧ dictGet "/a" [("/a", (1 : Rat))]
      = dictGet "/a" [("/a", (1 : Rat)), ("/b", (2 : Rat))]
  ∧ lstripSlash "/a" ∈
      (compute_diff [("/a", (1 : Rat))] [("/a", (1 : Rat)), ("/b", (2 : Rat))]
        ["a", "b"]).deleted
  ∧ "/a" ∈ toUpload
      (compute_diff [("/a", (1 : Rat))] [("/a", (1 : Rat)), ("/b", (2 : Rat))]
        ["a", "b"]) := by
  decide

/-! ### C9: idempotence of a second run -/

/-- C9 counterexample evaluation. First run: new index maps the absolute
path `/a` to mtime 1, the old index is empty, the bucket holds the object
`a` (the key the engine uploads `/a` under). After executing the first run
plan the bucket again holds exactly `a`, and the persisted index is the
first run new index. The second run diff against that bucket is not empty:
it re-deletes `a` and re-creates `/a`, because `compute_diff` compares
unstripped index paths with stripped bucket keys. -/
theorem sdk_second_run_plan_nonempty :
    compute_diff [("/a", (1 : Rat))] [("/a", (1 : Rat))]
        (bucketAfterRun ["a"] (compute_diff [("/a", (1 : Rat))] [] ["a"]))
      = { deleted := ["a"], created := ["/a"], modified := [] } := by
  decide

/-! ### C4: bulk deletions are chunked into batches of at most 1000 -/

theorem sliceChunks_cons (l : List String) (h : l ≠ []) :
    sliceChunks l = l.take 1000 :: sliceChunks (l.drop 1000) := by
  have hpos : 0 < l.length := List.length_pos.mpr h
  have hcount : (l.length + 999) / 1000 = ((l.drop 1000).length + 999) / 1000 + 1 := by
    simp only [List.length_drop]
    omega
  unfold sliceChunks
  rw [hcount, List.range_succ_eq_map, List.map_cons, List.map_map]
  refine congrArg₂ _ (by simp) ?_
  refine List.map_congr_left fun j hj => ?_
  simp [Function.comp, List.drop_drop, Nat.mul_succ, Nat.add_comm]

theorem sliceChunks_flatten_aux :
    ∀ (n : Nat) (l : List String), l.length ≤ n → (sliceChunks l).flatten = l := by
  intro n
  induction n with
  | zero =>
    intro l hl
    rw [List.length_eq_zero.mp (Nat.le_zero.mp hl)]
    rfl
  | succ n ih =>
    intro l hl
    by_cases h : l = []
    · subst h
      rfl
    · have hpos : 0 < l.length := List.length_pos.mpr h
      rw [sliceChunks_cons l h, List.flatten_cons,
        ih (l.drop 1000) (by simp only [List.length_drop]; omega),
        List.take_append_drop]

theorem sliceChunks_flatten (l : List String) : (sliceChunks l).flatten = l :=
  sliceChunks_flatten_aux l.length l le_rfl

/-- C4. `update_bucket` partitions the staged delete keys (after their
`lstrip("/")` rewrite) into consecutive chunks of at most 1000 keys, one
`bulk_delete_s3_objects` call per chunk; concatenating the chunks restores
the staged key list, so every staged key lands in exactly one chunk; and
2500 staged keys yield exactly the three calls of sizes 1000, 1000 and
500. -/
theorem delete_batches_spec (keys : List String) :
    (∀ b ∈ deleteBatches keys, b.length ≤ 1000)
  ∧ (deleteBatches keys).flatten = keys.map lstripSlash
  ∧ (keys.length = 2500 →
      (deleteBatches keys).map List.length = [1000, 1000, 500]) := by
  refine ⟨?_, sliceChunks_flatten _, ?_⟩
  · intro b hb
    obtain ⟨j, hj, rfl⟩ := List.mem_map.mp hb
    simp only [List.length_take]
    omega
  · intro h
    have hlen : (keys.map lstripSlash).length = 2500 := by
      rw [List.length_map, h]
    unfold deleteBatches sliceChunks
    rw [hlen, show (2500 + 999) / 1000 = 3 from by norm_num,
      show List.range 3 = [0, 1, 2] from rfl]
    simp only [List.map_cons, List.map_nil, List.length_take, List.length_drop, hlen]
    norm_num

/-- C4 witness: a concrete list of 2500 staged keys is split into exactly
three delete-batch calls of sizes 1000, 1000 and 500. -/
theorem delete_batches_spec_witness :
    (deleteBatches (List.replicate 2500 "/k")).map List.length
      = [1000, 1000, 500] :=
  (delete_batches_spec (List.replicate 2500 "/k")).2.2 (List.length_replicate 2500 "/k")

/-! ### C5 and C10: the path filter and the directory walk -/

/-- The path string the walk records for a file named `n` reached from
`path` through the nested directories `ds`. -/
def joinPath (path : String) (ds : List String) (n : String) : String :=
  (ds.foldl (fun acc d => acc ++ "/" ++ d) path) ++ "/" ++ n

/-- A file admitted by the filter at the end of a chain of admitted
directories: `Finds px sx f ds n m` holds when the forest `f` contains,
below the nested directories named `ds` (each of which passes `permitted`),
a file named `n` (which passes `permitted`) with mtime `m`. -/
inductive Finds (px sx : List String) : FSForest → List String → String → Rat → Prop
  | hereFile {n m ts} :
      permitted px sx n = true →
      Finds px sx (FSForest.cons (FSTree.file n m) ts) [] n m
  | hereDir {d cs ts ds n m} :
      permitted px sx d = true →
      Finds px sx cs ds n m →
      Finds px sx (FSForest.cons (FSTree.dir d cs) ts) (d :: ds) n m
  | there {t ts ds n m} :
      Finds px sx ts ds n m →
      Finds px sx (FSForest.cons t ts) ds n m

theorem mem_walkForest (px sx : List String) :
    ∀ (path : String) (f : FSForest) (k : String) (m : Rat),
      (k, m) ∈ walkForest px sx path f →
      ∃ ds n, Finds px sx f ds n m ∧ k = joinPath path ds n
  | _, FSForest.nil, _, _, h => by simp [walkForest] at h
  | path, FSForest.cons (FSTree.file n' m') ts, k, m, h => by
      simp only [walkForest, walkEntry] at h
      rcases List.mem_append.mp h with h1 | h2
      · by_cases hc : permitted px sx n' = true ∧ m' ≠ 0
        · rw [if_pos hc] at h1
          obtain ⟨hk, hm⟩ : k = path ++ "/" ++ n' ∧ m = m' := by simpa using h1
          subst hk
          subst hm
          exact ⟨[], n', Finds.hereFile hc.1, rfl⟩
        · rw [if_neg hc] at h1
          simp at h1
      · obtain ⟨ds, n, hf, hk⟩ := mem_walkForest px sx path ts k m h2
        exact ⟨ds, n, Finds.there hf, hk⟩
  | path, FSForest.cons (FSTree.dir d cs) ts, k, m, h => by
      simp only [walkForest, walkEntry] at h
      rcases List.mem_append.mp h with h1 | h2
      · by_cases hc : permitted px sx d = true
        · rw [if_pos hc] at h1
          obtain ⟨ds, n, hf, hk⟩ :=
            mem_walkForest px sx (path ++ "/" ++ d) cs k m h1
          exact ⟨d :: ds, n, Finds.hereDir hc hf, by rw [hk]; rfl⟩
        · rw [if_neg hc] at h1
          simp at h1
      · obtain ⟨ds, n, hf, hk⟩ := mem_walkForest px sx path ts k m h2
        exact ⟨ds, n, Finds.there hf, hk⟩

theorem walkForest_mtime_ne_zero (px sx : List String) :
    ∀ (path : String) (f : FSForest) (k : String) (m : Rat),
      (k, m) ∈ walkForest px sx path f → m ≠ 0
  | _, FSForest.nil, _, _, h => by simp [walkForest] at h
  | path, FSForest.cons (FSTree.file n' m') ts, k, m, h => by
      simp only [walkForest, walkEntry] at h
      rcases List.mem_append.mp h with h1 | h2
      · by_cases hc : permitted px sx n' = true ∧ m' ≠ 0
        · rw [if_pos hc] at h1
          obtain ⟨hk, hm⟩ : k = path ++ "/" ++ n' ∧ m = m' := by simpa using h1
          subst hm
          exact hc.2
        · rw [if_neg hc] at h1
          simp at h1
      · exact walkForest_mtime_ne_zero px sx path ts k m h2
  | path, FSForest.cons (FSTree.dir d cs) ts, k, m, h => by
      simp only [walkForest, walkEntry] at h
      rcases List.mem_append.mp h with h1 | h2
      · by_cases hc : permitted px sx d = true
        · rw [if_pos hc] at h1
          exact walkForest_mtime_ne_zero px sx (path ++ "/" ++ d) cs k m h1
        · rw [if_neg hc] at h1
          simp at h1
      · exact walkForest_mtime_ne_zero px sx path ts k m h2

theorem permitted_iff (px sx : List String) (x : String) :
    permitted px sx x = true ↔
      (∀ p ∈ px, ¬ p.data <+: x.data) ∧ (∀ s ∈ sx, ¬ s.data <:+ x.data) := by
  simp [permitted, List.any_eq_false, List.isPrefixOf_iff_prefix,
    List.isSuffixOf_iff_suffix]

/-! The backup.py walk (`compute_dir_index`, lines 53-95): at the first
level, files are dropped and only directories listed in `dirs_to_sync` are
entered; below that, directory names are filtered by the excluded prefixes
ONLY, while file names are filtered by both the excluded prefixes and
suffixes; keys are paths relative to the root. -/

/-- backup.py file filter:
`not f.startswith(prefixes) and not f.endswith(suffixes)`. -/
def backupFileOk (px sx : List String) (n : String) : Bool :=
  !(px.any (fun p => p.data.isPrefixOf n.data))
    && !(sx.any (fun s => s.data.isSuffixOf n.data))

/-- backup.py directory filter: `not d.startswith(prefixes)` — suffixes are
not consulted for directories. -/
def backupDirOk (px : List String) (n : String) : Bool :=
  !(px.any (fun p => p.data.isPrefixOf n.data))

mutual
/-- One non-root directory entry as seen by backup.py `compute_dir_index`. -/
def backupWalkEntry (px sx : List String) (rel : String) : FSTree → List (String × Rat)
  | FSTree.file n m =>
      if backupFileOk px sx n = true then [(rel ++ "/" ++ n, m)] else []
  | FSTree.dir n cs =>
      if backupDirOk px n = true
      then backupWalkForest px sx (rel ++ "/" ++ n) cs else []

/-- The backup.py walk over the entries of one non-root directory. -/
def backupWalkForest (px sx : List String) (rel : String) : FSForest → List (String × Rat)
  | FSForest.nil => []
  | FSForest.cons t ts =>
      backupWalkEntry px sx rel t ++ backupWalkForest px sx rel ts
end

/-- backup.py `compute_dir_index(path, dirs_to_sync, prefixes, suffixes)`:
the root level keeps no files and enters only the directories named in
`dirs_to_sync`; each entered directory `d` is walked with relative key
prefix `d`. -/
def backup_compute_dir_index (dirsToSync px sx : List String) :
    FSForest → List (String × Rat)
  | FSForest.nil => []
  | FSForest.cons (FSTree.file _ _) ts =>
      backup_compute_dir_index dirsToSync px sx ts
  | FSForest.cons (FSTree.dir n cs) ts =>
      (if n ∈ dirsToSync then backupWalkForest px sx n cs else [])
        ++ backup_compute_dir_index dirsToSync px sx ts

/-- C5 counterexample evaluation. With no excluded prefixes and the excluded
suffix `.tmp`, the directory name `x.tmp` fails the path filter, yet
backup.py prunes directories by prefix only, so the file `f` below the
directory `docs/x.tmp` appears in the index it produces. -/
theorem backup_walk_admits_file_under_excluded_dir :
    permitted [] [".tmp"] "x.tmp" = false
  ∧ ("docs/x.tmp/f", (1 : Rat)) ∈
      backup_compute_dir_index ["docs"] [] [".tmp"]
        (FSForest.cons
          (FSTree.dir "docs"
            (FSForest.cons
              (FSTree.dir "x.tmp" (FSForest.cons (FSTree.file "f" 1) FSForest.nil))
              FSForest.nil))
          FSForest.nil) := by
  decide

/-- C5, amended to the sdk walk. The filter `permitted` accepts a name
exactly when it starts with none of the excluded prefixes and ends with none
of the excluded suffixes; and every entry the sdk walk records comes from a
file whose name passes the filter, reached exclusively through directories
whose names pass the filter — so a file failing the filter, or lying
anywhere below a directory failing it, never contributes to the index. -/
theorem pathfilter_exclusion (px sx : List String) (x path : String)
    (f : FSForest) (k : String) (m : Rat)
    (h : (k, m) ∈ walkForest px sx path f) :
    (permitted px sx x = true ↔
      (∀ p ∈ px, ¬ p.data <+: x.data) ∧ (∀ s ∈ sx, ¬ s.data <:+ x.data))
  ∧ ∃ ds n, Finds px sx f ds n m ∧ k = joinPath path ds n :=
  ⟨permitted_iff px sx x, mem_walkForest px sx path f k m h⟩

/-- C5 witness: a concrete admitted file recorded by the walk, together with
the filter characterization at a concrete name. -/
theorem pathfilter_exclusion_witness :
    (permitted ["."] [".tmp"] "notes" = true ↔
      (∀ p ∈ ["."], ¬ p.data <+: "notes".data)
        ∧ (∀ s ∈ [".tmp"], ¬ s.data <:+ "notes".data))
  ∧ ∃ ds n,
      Finds ["."] [".tmp"]
        (FSForest.cons
          (FSTree.dir "docs" (FSForest.cons (FSTree.file "notes" 5) FSForest.nil))
          FSForest.nil) ds n 5
      ∧ "/home/docs/notes" = joinPath "/home" ds n :=
  pathfilter_exclusion ["."] [".tmp"] "notes" "/home"
    (FSForest.cons
      (FSTree.dir "docs" (FSForest.cons (FSTree.file "notes" 5) FSForest.nil))
      FSForest.nil)
    "/home/docs/notes" 5 (by decide)

/-- C10. The sdk walk records a file only when its stat mtime is truthy: a
file entry with mtime exactly 0 contributes nothing to the index (first
conjunct), no recorded index entry carries mtime 0 (second conjunct), and a
path absent from the new index is never staged for upload by the change
detector (third conjunct). -/
theorem sdk_zero_mtime_file_omitted (px sx : List String) (path n : String)
    (ts : FSForest) (_hn : permitted px sx n = true) :
    walkForest px sx path (FSForest.cons (FSTree.file n 0) ts)
      = walkForest px sx path ts
  ∧ (∀ (f : FSForest) (k : String) (m : Rat),
      (k, m) ∈ walkForest px sx path f → m ≠ 0)
  ∧ (∀ (ni oi : List (String × Rat)) (bucket : List String) (p : String),
      p ∉ keysOf ni → p ∉ toUpload (compute_diff ni oi bucket)) := by
  refine ⟨?_, fun f k m hm => walkForest_mtime_ne_zero px sx path f k m hm,
    fun ni oi bucket p hp hmem => hp (mem_toUpload_mem_keys ni oi bucket p hmem)⟩
  simp [walkForest, walkEntry]

/-- C10 witness: a concrete admitted file with mtime 0 is dropped from the
walk of its directory, recorded entries have nonzero mtimes, and a path
outside the index is not staged for upload. -/
theorem sdk_zero_mtime_file_omitted_witness :
    walkForest [] [] "/r"
        (FSForest.cons (FSTree.file "epoch" 0)
          (FSForest.cons (FSTree.file "live" 7) FSForest.nil))
      = walkForest [] [] "/r" (FSForest.cons (FSTree.file "live" 7) FSForest.nil)
  ∧ (∀ (f : FSForest) (k : String) (m : Rat),
      (k, m) ∈ walkForest [] [] "/r" f → m ≠ 0)
  ∧ (∀ (ni oi : List (String × Rat)) (bucket : List String) (p : String),
      p ∉ keysOf ni → p ∉ toUpload (compute_diff ni oi bucket)) :=
  sdk_zero_mtime_file_omitted [] [] "/r" "epoch"
    (FSForest.cons (FSTree.file "live" 7) FSForest.nil) (by decide)

/-! ### C6 and C7: plan execution, per-unit failure, and abort behaviour

The local filesystem at execution time is a map from path to byte size
(`Path(f).stat().st_size`). Store-call failures are injected through
predicates: `delFail` marks delete batches whose `delete_objects` call
raises `ClientError`/`BotoCoreError`, `upFail` marks keys whose S3 transfer
raises one of those. Both exception types are caught and logged by
`bulk_delete_s3_objects` / `upload_s3_object`; a `FileNotFoundError` from
reading the local file is NOT among the caught types and escapes the unit,
which the surrounding `asyncio.TaskGroup` turns into cancellation of the
remaining tasks and an exception out of `update_bucket` — modelled by the
`Except.error` results below. `update_bucket` takes two disk snapshots: the
one seen when sorting the staged uploads by size, and the one seen when the
upload units actually run. -/

/-- `Path(f).stat().st_size` over the disk model; `none` models a missing
file, whose stat raises `FileNotFoundError`. -/
def statSize (f : String) : List (String × Nat) → Option Nat
  | [] => none
  | (a, v) :: ts => if a = f then some v else statSize f ts

/-- Stable insertion of a key into a size-sorted list. -/
def insertBySize (sz : String → Nat) (x : String) : List String → List String
  | [] => [x]
  | y :: ys => if sz x < sz y then x :: y :: ys else y :: insertBySize sz x ys

/-- `to_upload.sort(key=lambda f: Path(f).stat().st_size)` — a stable
ascending sort by file size (sdk.py line 139). -/
def sortBySize (sz : String → Nat) : List String → List String
  | [] => []
  | x :: xs => insertBySize sz x (sortBySize sz xs)

/-- Per-unit results of one `update_bucket` run: one Bool per delete-batch
unit and one per upload unit, `true` for success, `false` for a caught,
logged store error. -/
structure RunLog where
  deleteOutcomes : List Bool
  uploadOutcomes : List Bool
deriving DecidableEq

/-- `bulk_delete_s3_objects` (sdk.py lines 154-163): the store call either
succeeds or raises `ClientError`/`BotoCoreError`, which is caught and
logged; the unit always completes. -/
def bulk_delete_s3_objects (delFail : List String → Bool) (batch : List String) : Bool :=
  !delFail batch

/-- `upload_s3_object` (sdk.py lines 166-176): `upload_file` first reads the
local file — a missing path raises `FileNotFoundError`, which is not among
the caught exception types and escapes the unit; a store error is caught and
logged. -/
def upload_s3_object (diskRun : List (String × Nat)) (upFail : String → Bool)
    (key : String) : Except String Bool :=
  match statSize key diskRun with
  | none => Except.error "FileNotFoundError"
  | some _ => Except.ok (!upFail key)

/-- Runs the upload units in order; an escaped exception aborts the group
(the `TaskGroup` cancels what remains). -/
def runUploads (diskRun : List (String × Nat)) (upFail : String → Bool) :
    List String → Except String (List Bool)
  | [] => Except.ok []
  | k :: ks =>
      match upload_s3_object diskRun upFail k with
      | Except.error e => Except.error e
      | Except.ok b =>
          match runUploads diskRun upFail ks with
          | Except.error e => Except.error e
          | Except.ok bs => Except.ok (b :: bs)

/-- `update_bucket` (sdk.py lines 126-151): chunk the staged deletes, sort
the staged uploads by on-disk size — `Path(f).stat()` on a path missing from
`diskSort` raises `FileNotFoundError` before any unit runs — then execute
the delete-batch units and upload units. -/
def update_bucket (diskSort diskRun : List (String × Nat))
    (delFail : List String → Bool) (upFail : String → Bool)
    (data : DiffData) : Except String RunLog :=
  let batches := deleteBatches data.deleted
  let to_upload := toUpload data
  if to_upload.all (fun f => (statSize f diskSort).isSome) then
    let sorted := sortBySize (fun f => (statSize f diskSort).getD 0) to_upload
    let delResults := batches.map (bulk_delete_s3_objects delFail)
    match runUploads diskRun upFail sorted with
    | Except.error e => Except.error e
    | Except.ok ups => Except.ok ⟨delResults, ups⟩
  else Except.error "FileNotFoundError"

/-- backup.py run summary: the counts accumulated by `execute_threads`. -/
structure RunSummary where
  uploaded : Nat
  deleted : Nat
  failed : Nat
deriving DecidableEq

/-- The `as_completed` loop of backup.py `execute_threads` (lines 161-193):
each future is inspected under `try/except Exception`, so any per-unit
error — store call or local file read alike — is printed and counted while
every other unit still runs; `fails i` injects an arbitrary exception into
unit `i`. Units are `(key, delete)` pairs. -/
def execute_threads_go (fails : Nat → Bool) :
    Nat → List (String × Bool) → RunSummary → RunSummary
  | _, [], s => s
  | i, (_, del) :: us, s =>
      execute_threads_go fails (i + 1) us
        (if fails i then { s with failed := s.failed + 1 }
         else if del then { s with deleted := s.deleted + 1 }
         else { s with uploaded := s.uploaded + 1 })

/-- backup.py `execute_threads` on a unit list, starting from zero counts. -/
def execute_threads (units : List (String × Bool)) (fails : Nat → Bool) : RunSummary :=
  execute_threads_go fails 0 units ⟨0, 0, 0⟩

theorem mem_insertBySize (sz : String → Nat) (x k : String) :
    ∀ l : List String, k ∈ insertBySize sz x l ↔ k = x ∨ k ∈ l := by
  intro l
  induction l with
  | nil => simp [insertBySize]
  | cons y ys ih =>
    simp only [insertBySize]
    split
    · simp
    · simp only [List.mem_cons, ih]
      tauto

theorem mem_sortBySize (sz : String → Nat) (k : String) :
    ∀ l : List String, k ∈ sortBySize sz l ↔ k ∈ l := by
  intro l
  induction l with
  | nil => simp [sortBySize]
  | cons x xs ih => simp [sortBySize, mem_insertBySize, ih]

theorem length_insertBySize (sz : String → Nat) (x : String) :
    ∀ l : List String, (insertBySize sz x l).length = l.length + 1 := by
  intro l
  induction l with
  | nil => rfl
  | cons y ys ih =>
    simp only [insertBySize]
    split
    · rfl
    · simp [ih]

theorem length_sortBySize (sz : String → Nat) :
    ∀ l : List String, (sortBySize sz l).length = l.length := by
  intro l
  induction l with
  | nil => rfl
  | cons x xs ih => simp [sortBySize, length_insertBySize, ih]

theorem runUploads_ok (diskRun : List (String × Nat)) (upFail : String → Bool) :
    ∀ l : List String, (∀ k ∈ l, (statSize k diskRun).isSome) →
      ∃ bs : List Bool, runUploads diskRun upFail l = Except.ok bs
        ∧ bs.length = l.length := by
  intro l
  induction l with
  | nil => exact fun _ => ⟨[], rfl, rfl⟩
  | cons k ks ih =>
    intro h
    obtain ⟨v, hv⟩ := Option.isSome_iff_exists.mp (h k (List.mem_cons_self k ks))
    obtain ⟨bs, hbs, hlen⟩ := ih fun a ha => h a (List.mem_cons_of_mem k ha)
    refine ⟨(!upFail k) :: bs, ?_, by simp [hlen]⟩
    simp [runUploads, upload_s3_object, hv, hbs]

theorem execute_threads_go_total (fails : Nat → Bool) :
    ∀ (us : List (String × Bool)) (i : Nat) (s : RunSummary),
      (execute_threads_go fails i us s).uploaded
        + (execute_threads_go fails i us s).deleted
        + (execute_threads_go fails i us s).failed
      = s.uploaded + s.deleted + s.failed + us.length := by
  intro us
  induction us with
  | nil => intro i s; simp [execute_threads_go]
  | cons u us ih =>
    intro i s
    obtain ⟨k, del⟩ := u
    simp only [execute_threads_go, List.length_cons]
    rw [ih]
    by_cases hf : fails i
    · simp [hf]
      omega
    · by_cases hd : del
      · simp [hf, hd]
        omega
      · simp [hf, hd]
        omega

/-- C7 counterexample evaluation. A plan with the delete batch `["victim"]`
and the uploads `/zap` and `/keep`, where `/zap` vanishes from disk between
the size sort and its upload unit: the unit's `FileNotFoundError` escapes
`upload_s3_object`'s `except (ClientError, BotoCoreError)` clause, so the
run aborts with the exception instead of completing — the sibling delete
and upload units are cancelled and no summary is produced, refuting the
claim for a per-unit local file read error in the sdk variant. -/
theorem sdk_local_read_error_aborts_run :
    update_bucket [("/zap", 1), ("/keep", 2)] [("/keep", 2)]
      (fun _ => false) (fun _ => false)
      { deleted := ["victim"], created := ["/zap", "/keep"], modified := [] }
      = Except.error "FileNotFoundError" := by
  rfl

/-- C7, amended. A store-call failure (`ClientError`/`BotoCoreError`) of any
delete-batch or upload unit is caught and logged without cancelling sibling
units or aborting the run: whenever every staged upload path is readable at
sort time and at unit run time, the sdk run completes with one recorded
outcome per delete batch and per staged upload, for every pattern of store
failures; and in the thread-pool variant every unit — whatever its error —
is counted, the summary satisfying uploaded + deleted + failed = number of
units. A local file read error in the sdk variant, by contrast, aborts the
run (see the counterexample). -/
theorem unit_store_failures_isolated (diskSort diskRun : List (String × Nat))
    (delFail : List String → Bool) (upFail : String → Bool) (data : DiffData)
    (hsort : ∀ f ∈ toUpload data, (statSize f diskSort).isSome)
    (hrun : ∀ f ∈ toUpload data, (statSize f diskRun).isSome) :
    (∃ log : RunLog,
      update_bucket diskSort diskRun delFail upFail data = Except.ok log
      ∧ log.deleteOutcomes.length = (deleteBatches data.deleted).length
      ∧ log.uploadOutcomes.length = (toUpload data).length)
  ∧ ∀ (units : List (String × Bool)) (fails : Nat → Bool),
      (execute_threads units fails).uploaded + (execute_threads units fails).deleted
        + (execute_threads units fails).failed = units.length := by
  constructor
  · have hguard : (toUpload data).all (fun f => (statSize f diskSort).isSome) = true := by
      rw [List.all_eq_true]
      exact hsort
    obtain ⟨bs, hbs, hlen⟩ :=
      runUploads_ok diskRun upFail
        (sortBySize (fun f => (statSize f diskSort).getD 0) (toUpload data))
        (fun k hk => hrun k ((mem_sortBySize _ k _).mp hk))
    refine ⟨⟨(deleteBatches data.deleted).map (bulk_delete_s3_objects delFail), bs⟩, ?_, by
      simp, by simp [hlen, length_sortBySize]⟩
    simp [update_bucket, hguard, hbs]
  · intro units fails
    have h := execute_threads_go_total fails units 0 ⟨0, 0, 0⟩
    simpa [execute_threads] using h

/-- C7 witness: a concrete plan in which every delete batch and every
upload suffers a store error still completes with one recorded outcome per
unit, and the thread-pool counts always total the unit count. -/
theorem unit_store_failures_isolated_witness :
    (∃ log : RunLog,
      update_bucket [("/a", 3)] [("/a", 3)] (fun _ => true) (fun _ => true)
        { deleted := ["k1", "k2"], created := ["/a"], modified := [] }
        = Except.ok log
      ∧ log.deleteOutcomes.length
          = (deleteBatches (DiffData.deleted
              { deleted := ["k1", "k2"], created := ["/a"], modified := [] })).length
      ∧ log.uploadOutcomes.length
          = (toUpload { deleted := ["k1", "k2"], created := ["/a"], modified := [] }).length)
  ∧ ∀ (units : List (String × Bool)) (fails : Nat → Bool),
      (execute_threads units fails).uploaded + (execute_threads units fails).deleted
        + (execute_threads units fails).failed = units.length :=
  unit_store_failures_isolated [("/a", 3)] [("/a", 3)] (fun _ => true) (fun _ => true)
    { deleted := ["k1", "k2"], created := ["/a"], modified := [] }
    (by decide) (by decide)

/-- C6 evaluation at the failing input. The plan stages `/gone` for upload
but the file is absent from disk when `update_bucket` runs: the engine does
not skip the unit or convert it to a delete — `Path(f).stat()` in the
size-sort raises `FileNotFoundError` (and `upload_file`'s local read error
is equally uncaught), aborting the whole run before any unit, including the
staged delete of `old`, executes. -/
theorem sdk_missing_staged_file_aborts_run :
    update_bucket [] [] (fun _ => false) (fun _ => false)
      { deleted := ["old"], created := ["/gone"], modified := [] }
      = Except.error "FileNotFoundError" := by
  rfl

/-! ### C8: concurrency admission control

The two schedulers are modelled as transition systems over a pending-unit
count and an in-flight-unit count. A unit is admitted only when the
scheduler's admission predicate holds for the current in-flight count; a
running unit may finish at any time. In sdk.py, between the admission check
leaving the `while` loop and `tg.create_task` there is no `await`, so the
check and the task creation are atomic on the event loop and the transition
system is a faithful abstraction. -/

/-- A scheduler state: units not yet submitted, and units in flight. -/
structure SchedState where
  pending : Nat
  inFlight : Nat
deriving DecidableEq

/-- sdk.py admission (lines 143-151): the loop
`while active_tasks() >= MAX_ACTIVE_TASKS: await asyncio.sleep(0.25)` only
falls through when `active_tasks()` is below the limit; `asyncio.all_tasks`
counts every unfinished task including the main task, so with `f` units in
flight the count is `f + 1`. -/
def sdkCanAdmit (limit f : Nat) : Prop :=
  f + 1 < limit

/-- `ThreadPoolExecutor` admission: a submitted unit starts running as soon
as fewer than `max_workers` are in flight. -/
def poolCanAdmit (maxWorkers f : Nat) : Prop :=
  f < maxWorkers

/-- backup.py line 167:
`max_workers = max(len(super_args), os.cpu_count() + 4)`. -/
def backupMaxWorkers (nUnits cpu : Nat) : Nat :=
  max nUnits (cpu + 4)

/-- One scheduler step: admit a pending unit (when the admission predicate
allows it) or finish a running one. -/
inductive SchedStep (adm : Nat → Prop) : SchedState → SchedState → Prop
  | start {p f} : adm f → SchedStep adm ⟨p + 1, f⟩ ⟨p, f + 1⟩
  | finish {p f} : SchedStep adm ⟨p, f + 1⟩ ⟨p, f⟩

/-- Reachability in the scheduler transition system. -/
inductive SchedReach (adm : Nat → Prop) : SchedState → SchedState → Prop
  | refl (s) : SchedReach adm s s
  | head {s t u} : SchedStep adm s t → SchedReach adm t u → SchedReach adm s u

theorem sdk_reach_bound (limit : Nat) :
    ∀ s t : SchedState, SchedReach (sdkCanAdmit limit) s t →
      s.inFlight ≤ limit → t.inFlight ≤ limit := by
  intro s t h
  induction h with
  | refl => exact id
  | head st _ ih =>
    intro hs
    apply ih
    cases st with
    | start ha => exact Nat.le_of_lt ha
    | finish => exact Nat.le_of_succ_le hs

theorem pool_admit_run (mw : Nat) :
    ∀ j p f : Nat, (∀ i, i < j → f + i < mw) →
      SchedReach (poolCanAdmit mw) ⟨p + j, f⟩ ⟨p, f + j⟩ := by
  intro j
  induction j with
  | zero => exact fun p f _ => SchedReach.refl _
  | succ j ih =>
    intro p f h
    refine SchedReach.head (SchedStep.start (h 0 (Nat.succ_pos j))) ?_
    have hr := ih p (f + 1) (fun i hi => by
      have h2 := h (i + 1) (Nat.succ_lt_succ hi)
      omega)
    have heq : f + 1 + j = f + (j + 1) := by omega
    rw [heq] at hr
    exact hr

/-- C8 counterexample evaluation. backup.py sizes its pool to
`max(len(super_args), cpu + 4)`, so with 100 units and 4 CPUs the pool
admits all 100 units simultaneously: a state with 100 units in flight is
reachable, although the configured concurrency limit (the spec default,
the host CPU count 4 — or even cpu + 4 = 8) is far smaller. -/
theorem backup_pool_exceeds_cpu_limit :
    SchedReach (poolCanAdmit (backupMaxWorkers 100 4)) ⟨100, 0⟩ ⟨0, 100⟩
  ∧ 4 + 4 < 100 := by
  constructor
  · have hmw : backupMaxWorkers 100 4 = 100 := by decide
    have h := pool_admit_run (backupMaxWorkers 100 4) 100 0 0
      (fun i hi => by rw [hmw]; omega)
    simpa using h
  · norm_num

/-- C8, amended to the sdk scheduler. In every state reachable from an
initial state with no units in flight, the number of in-flight units never
exceeds `MAX_ACTIVE_TASKS`: the admission loop only submits a task while
`active_tasks()` (in-flight units plus the main task) is below the limit.
The thread-pool variant enforces no such configured bound (see the
counterexample). -/
theorem sdk_inflight_bounded (limit n : Nat) (s : SchedState)
    (h : SchedReach (sdkCanAdmit limit) ⟨n, 0⟩ s) : s.inFlight ≤ limit :=
  sdk_reach_bound limit ⟨n, 0⟩ s h (Nat.zero_le limit)

/-- C8 witness: with limit 3 and two pending units, the state reached by
admitting one unit has one unit in flight, within the limit. -/
theorem sdk_inflight_bounded_witness :
    SchedReach (sdkCanAdmit 3) ⟨2, 0⟩ ⟨1, 1⟩
  ∧ (⟨1, 1⟩ : SchedState).inFlight ≤ 3 :=
  have hr : SchedReach (sdkCanAdmit 3) ⟨2, 0⟩ ⟨1, 1⟩ :=
    SchedReach.head (SchedStep.start (by norm_num [sdkCanAdmit]))
      (SchedReach.refl _)
  ⟨hr, sdk_inflight_bounded 3 2 ⟨1, 1⟩ hr⟩

end PCBackup
